import Mathlib

/-!
Verification of the `regpath` library (`src/regpath/__init__.py`).

Shallow embedding conventions:
  * Python `str` is modelled as `List Char` (`Str`); `str.split("\\")`,
    `"\\".join(...)`, `str.lower()/upper()` are modelled by executable
    functions below that mirror CPython semantics on the separator `'\\'`.
  * `RegistryPath` is a structure holding the fields the Python object
    carries after `__init__` ran: `_raw_path`, `value_name`, `computer`
    (already normalised) and `_key` (the resolved HKEY constant).
  * Fallible Python code (raising exceptions) is modelled with
    `Except Err`; `Err` enumerates the exception *kinds* raised by the
    code or by the `winreg` layer (`valueError` = `ValueError`,
    `fileNotFound` = `FileNotFoundError`, `hkeyNotFoundError` = the
    library's `HKeyNotFoundError` subclass of `FileNotFoundError`,
    `keyError` = a dict `KeyError`, `notADirectory` = `NotADirectoryError`,
    `osError` = any other `OSError`).
  * The `winreg` module is an external capability; it is modelled by a
    structure `Winreg` of (pure) functions, quantified over in the
    theorems.  Mutating primitives additionally leave a trace of `Mut`
    events so that "no store mutation happened" is expressible.
  * Python `==` on `RegistryPath` compares `hash(repr(...))`; it is
    modelled as equality of the `repr` strings (`pathEq`).
-/

namespace Regpath

/-- Python strings, modelled as their character lists. -/
abbrev Str := List Char

/-- Python `s.split(sep)` for a single-character separator: every occurrence
of the separator splits, empty pieces are kept, and the empty string splits
to `[""]`. -/
def splitOnChar (sep : Char) : Str → List Str
  | [] => [[]]
  | c :: rest =>
    match splitOnChar sep rest with
    | [] => [[]]
    | g :: gs => if c = sep then [] :: g :: gs else (c :: g) :: gs

/-- Python `sep.join(pieces)` for a single-character separator. -/
def joinChar (sep : Char) : List Str → Str
  | [] => []
  | [x] => x
  | x :: y :: rest => x ++ sep :: joinChar sep (y :: rest)

/-- Python `s.lower()` (ASCII is all the code relies on). -/
def toLowerStr (s : Str) : Str := s.map Char.toLower

/-- Python `s.upper()` (ASCII is all the code relies on). -/
def toUpperStr (s : Str) : Str := s.map Char.toUpper

/-! ### Error kinds

Each constructor is one Python exception kind raised by the library or by
`winreg`.  `HKeyNotFoundError` is a subclass of `FileNotFoundError` in the
source, so the `except FileNotFoundError` handlers catch both; this class
relation is captured by `Err.isFileNotFound`. -/

inductive Err where
  /-- Python `ValueError`. -/
  | valueError
  /-- The library's `HKeyNotFoundError` (subclass of `FileNotFoundError`). -/
  | hkeyNotFoundError
  /-- A Python dict lookup `KeyError` (not caught anywhere in the library). -/
  | keyError
  /-- Python `FileNotFoundError`, the store's NotFound signal. -/
  | fileNotFound
  /-- Python `FileExistsError`. -/
  | fileExists
  /-- Python `NotADirectoryError`. -/
  | notADirectory
  /-- Python `PermissionError` or any other `OSError` from the store. -/
  | osError
deriving DecidableEq, Repr

/-- Whether a Python `except FileNotFoundError` clause catches this error
kind (`HKeyNotFoundError` subclasses `FileNotFoundError`). -/
def Err.isFileNotFound : Err → Bool
  | .fileNotFound => true
  | .hkeyNotFoundError => true
  | _ => false

/-! ### winreg constants (`winreg` module values) -/

def HKEY_CLASSES_ROOT : Nat := 0x80000000
def HKEY_CURRENT_USER : Nat := 0x80000001
def HKEY_LOCAL_MACHINE : Nat := 0x80000002
def HKEY_USERS : Nat := 0x80000003
def HKEY_CURRENT_CONFIG : Nat := 0x80000005

def KEY_READ : Nat := 0x20019
def KEY_WRITE : Nat := 0x20006

def REG_NONE : Nat := 0
def REG_SZ : Nat := 1
def REG_EXPAND_SZ : Nat := 2
def REG_BINARY : Nat := 3
def REG_DWORD : Nat := 4
def REG_MULTI_SZ : Nat := 7
def REG_QWORD : Nat := 11

/-- The `REGISTRY_KEYS` dict of the source, as a lookup function: dict
indexing `REGISTRY_KEYS[s]` is `registryKeysLookup s` (a `none` result is a
Python `KeyError`), and the membership test `s in REGISTRY_KEYS` is
`(registryKeysLookup s).isSome`. -/
def registryKeysLookup (s : Str) : Option Nat :=
  if s = ("HKCR").data then some HKEY_CLASSES_ROOT
  else if s = ("HKEY_CLASSES_ROOT").data then some HKEY_CLASSES_ROOT
  else if s = ("HKCU").data then some HKEY_CURRENT_USER
  else if s = ("HKEY_CURRENT_USER").data then some HKEY_CURRENT_USER
  else if s = ("HKLM").data then some HKEY_LOCAL_MACHINE
  else if s = ("HKEY_LOCAL_MACHINE").data then some HKEY_LOCAL_MACHINE
  else if s = ("HKU").data then some HKEY_USERS
  else if s = ("HKEY_USERS").data then some HKEY_USERS
  else if s = ("HKCC").data then some HKEY_CURRENT_CONFIG
  else if s = ("HKEY_CURRENT_CONFIG").data then some HKEY_CURRENT_CONFIG
  else none

/-! ### The Path model -/

/-- The state of a `RegistryPath` object after `__init__` ran successfully:
`raw` is `_raw_path` (the raw path with any leading `computer` component
already stripped), `value_name` and `computer` are the equally named
attributes (`computer` already normalised to its `\\host` form), and `key`
is `_key`, the HKEY constant resolved from the first path component. -/
structure RegistryPath where
  raw : Str
  value_name : Option Str
  computer : Option Str
  key : Nat
deriving DecidableEq, Repr

/-- Models `RegistryPath._parse_raw_path`: resolve the HKEY constant from the
first path component.  The membership test is done on the *upper-cased*
first component, but the dict is then indexed with the component in its
*original* case — so a known alias in non-canonical case passes the test
and then raises a `KeyError`; an unknown alias raises `HKeyNotFoundError`. -/
def parse_raw_path (path_components : List Str) : Except Err Nat :=
  let first_component := path_components.headD []
  if (registryKeysLookup (toUpperStr first_component)).isSome then
    match registryKeysLookup first_component with
    | some k => .ok k
    | none => .error .keyError
  else .error .hkeyNotFoundError

/-- The two `computer`-normalising statements at the top of
`RegistryPath.__init__`: the literal "computer" (case-insensitively) means
local, i.e. `None`; any other string gets a `\\` prefix after stripping its
leading backslashes. -/
def normalizeComputer (computer : Option Str) : Option Str :=
  let comp1 : Option Str :=
    match computer with
    | some c => if toLowerStr c = ("computer").data then none else some c
    | none => none
  match comp1 with
  | some c => some ('\\' :: '\\' :: c.dropWhile (fun ch => ch = '\\'))
  | none => none

/-- Models `RegistryPath.__init__` / the constructor `RegistryPath(raw_path,
value_name, computer)`.  Mirrors the source line by line: normalise
`computer`, reject an empty `raw_path` with `ValueError`, strip a leading
case-insensitive `computer` component (`raw_path[len("computer") + 1:]`),
split on the backslash, and resolve the HKEY via `parse_raw_path`. -/
def construct (raw_path : Str) (value_name : Option Str) (computer : Option Str) :
    Except Err RegistryPath :=
  let comp2 := normalizeComputer computer
  if raw_path = [] then .error .valueError
  else
    let raw :=
      if ("computer").data.isPrefixOf (toLowerStr raw_path) then
        raw_path.drop (("computer").data.length + 1)
      else raw_path
    match parse_raw_path (splitOnChar '\\' raw) with
    | .ok k => .ok { raw := raw, value_name := value_name, computer := comp2, key := k }
    | .error e => .error e

/-- Models `RegistryPath.__repr__`. -/
def pathRepr (p : RegistryPath) : Str :=
  let ret : Str :=
    match p.value_name with
    | none => ("<RegistryPath: ").data ++ p.raw
    | some v => ("<RegistryPath: ").data ++ p.raw ++ (" -> ").data ++ v
  let ret : Str :=
    match p.computer with
    | none => ret
    | some c => ret ++ (" On ").data ++ c
  ret ++ (">").data

/-- Models `RegistryPath.__eq__`, which compares `hash(repr(self))` with
`hash(repr(other))`; modelled as equality of the repr strings. -/
def pathEq (a b : RegistryPath) : Bool :=
  pathRepr a == pathRepr b

/-- Models `RegistryPath._path_split`: split `_raw_path` on the backslash only
(the `/` operator is accepted for joining but never used for splitting). -/
def path_split (p : RegistryPath) : List Str :=
  splitOnChar '\\' p.raw

/-- Models `RegistryPath.parts`: the split components, with `value_name` appended
when it is set. -/
def parts (p : RegistryPath) : List Str :=
  path_split p ++ (match p.value_name with
    | some v => [v]
    | none => [])

/-- Models `RegistryPath.name`: the `value_name` if set, else the last part.
(`self.parts[-1]` cannot fail: `_path_split` never returns an empty list,
so the `getLastD` default is never used.) -/
def name (p : RegistryPath) : Str :=
  match p.value_name with
  | none => (parts p).getLastD []
  | some v => v

/-- Models `RegistryPath.subkey`: all parts except the first (the HKEY alias) and,
when a value name is present, except that trailing value name. -/
def subkey (p : RegistryPath) : Str :=
  match p.value_name with
  | some _ => joinChar '\\' (((parts p).drop 1).dropLast)
  | none => joinChar '\\' ((parts p).drop 1)

/-- Models `RegistryPath.__truediv__` (the `/` operator): refuse when a
`value_name` is set (`ValueError`), else construct from
`"\\".join(self.parts) + "\\" + other`, passing `computer` through. -/
def truediv (p : RegistryPath) (other : Str) : Except Err RegistryPath :=
  match p.value_name with
  | some _ => .error .valueError
  | none => construct (joinChar '\\' (parts p) ++ '\\' :: other) none p.computer

/-- Error-propagating map over a list, mirroring a Python `for` loop whose
body may raise: elements are produced in order and the first failure
aborts. -/
def mapME (f : α → Except Err β) : List α → Except Err (List β)
  | [] => .ok []
  | a :: rest =>
    match f a with
    | .error e => .error e
    | .ok b =>
      match mapME f rest with
      | .error e => .error e
      | .ok bs => .ok (b :: bs)

/-- Models `RegistryPath.parents`: for `i in range(1, len(parts))`, construct
`RegistryPath("\\".join(self.parts[:-i]))` — with no `value_name` and no
`computer` argument. -/
def parents (p : RegistryPath) : Except Err (List RegistryPath) :=
  mapME
    (fun i => construct (joinChar '\\' ((parts p).take ((parts p).length - i))) none none)
    (List.range' 1 ((parts p).length - 1))

/-- Models `RegistryPath.parent`: `self.parents[0]`; an empty `parents` tuple is a
Python `IndexError`, modelled as `osError` (the exact kind is irrelevant:
no claim exercises it). -/
def parent (p : RegistryPath) : Except Err RegistryPath :=
  match parents p with
  | .error e => .error e
  | .ok [] => .error .osError
  | .ok (q :: _) => .ok q

/-- Models `RegistryPath.with_value_name`: rebuild from the same `_raw_path` and
`computer` with the given `value_name`. -/
def with_value_name (p : RegistryPath) (value_name : Option Str) :
    Except Err RegistryPath :=
  construct p.raw value_name p.computer

/-- Python's `value_name or self.value_name` idiom: the empty string is
falsy, so both `None` and `""` fall back to the second operand (which is
returned verbatim, even when it is itself `""`). -/
def pyOr (a b : Option Str) : Option Str :=
  match a with
  | some s => if s = [] then b else some s
  | none => b

/-! ### The winreg capability interface -/

/-- A Python value that can be written to / read from the registry, as far
as `write`'s `isinstance`-based type guessing distinguishes them. -/
inductive Value where
  | str (s : Str)
  | list (elems : List Value)
  | none
  | int (n : Int)
  | bytes (bs : List Nat)

/-- One mutating `winreg` primitive call actually issued (used to express
"no store mutation was performed"). -/
inductive Mut where
  | setValue (handle : Nat) (name : Str) (reserved : Nat) (typ : Nat) (val : Value)
  | deleteValue (handle : Nat) (name : Str)

/-- The `winreg` module as consumed by the library: a record of pure
functions, one per primitive, each returning the primitive's result or the
exception kind it raises.  Handles are opaque numbers. -/
structure Winreg where
  /-- Models `winreg.ConnectRegistry(computer, key)`. -/
  connectRegistry : Option Str → Nat → Except Err Nat
  /-- Models `winreg.OpenKey(handle, sub_key, access=...)`. -/
  openKey : Nat → Str → Nat → Except Err Nat
  /-- Models `winreg.QueryValueEx(handle, name)` → `(value, type)`. -/
  queryValueEx : Nat → Str → Except Err (Value × Nat)
  /-- Models `winreg.SetValueEx(handle, name, reserved, type, value)`. -/
  setValueEx : Nat → Str → Nat → Nat → Value → Except Err Unit
  /-- Models `winreg.DeleteValue(handle, name)`. -/
  deleteValue : Nat → Str → Except Err Unit
  /-- Models `winreg.QueryInfoKey(handle)` → `(num_sub_keys, num_values, modified)`. -/
  queryInfoKey : Nat → Except Err (Nat × Nat × Nat)
  /-- Models `winreg.EnumKey(handle, index)`. -/
  enumKey : Nat → Nat → Except Err Str
  /-- Models `winreg.EnumValue(handle, index)` → `(name, value, type)`. -/
  enumValue : Nat → Nat → Except Err (Str × Value × Nat)

/-- The access mask computed at the top of `_get_subkey_handle`. -/
def accessOf (reads writes : Bool) : Nat :=
  Nat.lor (if reads then KEY_READ else 0) (if writes then KEY_WRITE else 0)

/-- Models `RegistryPath._get_subkey_handle` viewed as "acquire and hand me the
key handle": connect to the registry on `self.computer` against `self._key`
and open `self.subkey` with the requested access. -/
def getSubkeyHandle (w : Winreg) (p : RegistryPath) (reads writes : Bool) :
    Except Err Nat :=
  match w.connectRegistry p.computer p.key with
  | .error e => .error e
  | .ok reg_handle => w.openKey reg_handle (subkey p) (accessOf reads writes)

/-- Acquire/release events of `_get_subkey_handle`'s two nested `with`
blocks (the context managers of `ConnectRegistry` and `OpenKey`). -/
inductive HEvent where
  | acquireConn (handle : Nat)
  | releaseConn (handle : Nat)
  | acquireKey (handle : Nat)
  | releaseKey (handle : Nat)
deriving DecidableEq, Repr

/-- Occurrence count of one event in a trace. -/
def countEv (e : HEvent) : List HEvent → Nat
  | [] => 0
  | x :: rest => (if x = e then 1 else 0) + countEv e rest

/-- Models `RegistryPath._get_subkey_handle` as the context manager it is, run
around a `body`: the full acquire/release event trace is returned next to
the result.  `with ConnectRegistry(...) as reg_handle:` propagates a
connect failure with nothing acquired; once the connection is acquired, a
failing `OpenKey` still releases it while unwinding; once both are
acquired, the body's outcome — normal or error — is followed by releasing
the key handle and then the connection handle. -/
def getSubkeyHandleScoped (w : Winreg) (p : RegistryPath) (reads writes : Bool)
    (body : Nat → Except Err β) : Except Err β × List HEvent :=
  match w.connectRegistry p.computer p.key with
  | .error e => (.error e, [])
  | .ok reg_handle =>
    match w.openKey reg_handle (subkey p) (accessOf reads writes) with
    | .error e => (.error e, [.acquireConn reg_handle, .releaseConn reg_handle])
    | .ok handle =>
      (body handle,
       [.acquireConn reg_handle, .acquireKey handle,
        .releaseKey handle, .releaseConn reg_handle])

/-! ### Registry operations -/

/-- Models `RegistryPath.exists`: open the subkey handle and, when a `value_name`
is set, query it; the surrounding `except FileNotFoundError` turns that
error kind (wherever it arose) into `False`; other kinds propagate. -/
def pexists (w : Winreg) (p : RegistryPath) : Except Err Bool :=
  match getSubkeyHandle w p true false with
  | .ok handle =>
    match p.value_name with
    | none => .ok true
    | some vn =>
      match w.queryValueEx handle vn with
      | .ok _ => .ok true
      | .error e => if e.isFileNotFound then .ok false else .error e
  | .error e => if e.isFileNotFound then .ok false else .error e

/-- Models `RegistryPath.is_dir`: `self.value_name is None and self.exists()`
(short-circuit: a value-path never touches the store). -/
def is_dir (w : Winreg) (p : RegistryPath) : Except Err Bool :=
  match p.value_name with
  | some _ => .ok false
  | none => pexists w p

/-- Models `RegistryPath.is_file`: the effective name (`value_name or
self.value_name`) must be non-None, and the path rebuilt via
`with_value_name(value_name=value_name)` — note: the *original* argument,
not the effective name — must exist. -/
def is_file (w : Winreg) (p : RegistryPath) (value_name : Option Str) :
    Except Err Bool :=
  match pyOr value_name p.value_name with
  | none => .ok false
  | some _ =>
    match with_value_name p value_name with
    | .error e => .error e
    | .ok p2 => pexists w p2

/-- Models `RegistryPath.registry_type`: `ValueError` when `value_name` is unset,
else the type tag from `QueryValueEx`. -/
def registry_type (w : Winreg) (p : RegistryPath) : Except Err Nat :=
  match p.value_name with
  | none => .error .valueError
  | some vn =>
    match getSubkeyHandle w p true false with
    | .error e => .error e
    | .ok handle =>
      match w.queryValueEx handle vn with
      | .error e => .error e
      | .ok (_, t) => .ok t

/-- Models `RegistryPath.iterdir`: `NotADirectoryError` unless `is_dir()`; then
one `QueryInfoKey`, then `self / EnumKey(handle, i)` for each subkey index
in ascending order, then `self.with_value_name(EnumValue(handle, i)[0])`
for each value index in ascending order.  (The Python generator is
evaluated to the list of the values it yields; an exception partway is the
whole iteration's outcome, as it is for a consumer of the generator.) -/
def iterdir (w : Winreg) (p : RegistryPath) : Except Err (List RegistryPath) :=
  match is_dir w p with
  | .error e => .error e
  | .ok false => .error .notADirectory
  | .ok true =>
    match getSubkeyHandle w p true false with
    | .error e => .error e
    | .ok handle =>
      match w.queryInfoKey handle with
      | .error e => .error e
      | .ok (num_sub_keys, num_values, _) =>
        match mapME (fun i =>
            match w.enumKey handle i with
            | .error e => .error e
            | .ok sub_key_name => truediv p sub_key_name) (List.range num_sub_keys) with
        | .error e => .error e
        | .ok keys =>
          match mapME (fun i =>
              match w.enumValue handle i with
              | .error e => .error e
              | .ok (value_name, _, _) => with_value_name p (some value_name))
              (List.range num_values) with
          | .error e => .error e
          | .ok vals => .ok (keys ++ vals)

/-- Models `RegistryPath.unlink`: `FileNotFoundError` ("points to a directory/key
not a file") when `value_name` is unset; else `DeleteValue` under a
read+write handle, swallowing the store's `FileNotFoundError` when
`missing_ok`.  The second component lists the mutating primitive calls
actually issued. -/
def unlink (w : Winreg) (p : RegistryPath) (missing_ok : Bool) :
    Except Err Unit × List Mut :=
  match p.value_name with
  | none => (.error .fileNotFound, [])
  | some vn =>
    match getSubkeyHandle w p true true with
    | .error e => (.error e, [])
    | .ok handle =>
      match w.deleteValue handle vn with
      | .ok _ => (.ok (), [.deleteValue handle vn])
      | .error e =>
        if e.isFileNotFound then
          if missing_ok then (.ok (), [.deleteValue handle vn])
          else (.error e, [.deleteValue handle vn])
        else (.error e, [.deleteValue handle vn])

/-- Models `RegistryPath.read_raw`: resolve the effective value name with the
falsy-`or`, raise `ValueError` when it is `None`, else `QueryValueEx` under
a read handle. -/
def read_raw (w : Winreg) (p : RegistryPath) (value_name : Option Str) :
    Except Err (Value × Nat) :=
  match pyOr value_name p.value_name with
  | none => .error .valueError
  | some vn =>
    match getSubkeyHandle w p true false with
    | .error e => .error e
    | .ok handle => w.queryValueEx handle vn

/-- Models `RegistryPath.read`: `read_raw` with the type tag dropped. -/
def read (w : Winreg) (p : RegistryPath) (value_name : Option Str) :
    Except Err Value :=
  match read_raw w p value_name with
  | .error e => .error e
  | .ok (raw_value, _) => .ok raw_value

/-- Models `RegistryPath.write_raw`: resolve the effective value name, raise
`ValueError` when `None`, else `SetValueEx(handle, vname, 0, typ, value)`
under a read+write handle.  The second component lists the mutating
primitive calls actually issued. -/
def write_raw (w : Winreg) (p : RegistryPath) (value : Value) (typ : Nat)
    (value_name : Option Str) : Except Err Unit × List Mut :=
  match pyOr value_name p.value_name with
  | none => (.error .valueError, [])
  | some vn =>
    match getSubkeyHandle w p true true with
    | .error e => (.error e, [])
    | .ok handle =>
      match w.setValueEx handle vn 0 typ value with
      | .ok _ => (.ok (), [.setValue handle vn 0 typ value])
      | .error e => (.error e, [.setValue handle vn 0 typ value])

/-- Models `RegistryPath.write`: resolve the effective value name (`ValueError`
when `None`); when `read_type`, try `self.with_value_name(vname)
.registry_type` and use it, catching `FileNotFoundError` (per Python class
hierarchy, `HKeyNotFoundError` included); otherwise guess from the value:
a string is `REG_EXPAND_SZ` when its `%` count is positive and even, else
`REG_SZ`; a list is `REG_MULTI_SZ`; `None` is `REG_NONE`; a negative int
raises `ValueError`, an int above `0xFFFFFFFF` is `REG_QWORD`, else
`REG_DWORD`; anything else (bytes) keeps the `REG_BINARY` default.
Finally delegate to `write_raw(value, typ, vname)`. -/
def write (w : Winreg) (p : RegistryPath) (value : Value)
    (value_name : Option Str) (read_type : Bool) : Except Err Unit × List Mut :=
  match pyOr value_name p.value_name with
  | none => (.error .valueError, [])
  | some vn =>
    let guessed : Except Err Nat :=
      match value with
      | .str s =>
        let percent_count := (s.filter (fun ch => ch = '%')).length
        if 0 < percent_count ∧ percent_count % 2 = 0 then .ok REG_EXPAND_SZ
        else .ok REG_SZ
      | .list _ => .ok REG_MULTI_SZ
      | .none => .ok REG_NONE
      | .int n =>
        if n < 0 then .error .valueError
        else if 0xFFFFFFFF < n then .ok REG_QWORD
        else .ok REG_DWORD
      | .bytes _ => .ok REG_BINARY
    let typResolved : Except Err Nat :=
      if read_type then
        match
          ((match with_value_name p (some vn) with
            | .error e => .error e
            | .ok p2 => registry_type w p2) : Except Err Nat) with
        | .ok t => .ok t
        | .error e => if e.isFileNotFound then guessed else .error e
      else guessed
    match typResolved with
    | .error e => (.error e, [])
    | .ok typ => write_raw w p value typ (some vn)

/-- A container path on the local machine: the shape of every element the
`parents` loop produces (no `value_name`, no `computer`). -/
def mkKeyPath (raw : Str) (key : Nat) : RegistryPath :=
  { raw := raw, value_name := none, computer := none, key := key }

/-! ### Concrete fixtures used by witnesses and counterexamples -/

/-- Models `RegistryPath("HKLM\\Foo")`. -/
def pFoo : RegistryPath :=
  { raw := ("HKLM\\Foo").data, value_name := none, computer := none,
    key := HKEY_LOCAL_MACHINE }

/-- Models `RegistryPath("HKLM\\Foo", computer="srv")`. -/
def pFooSrv : RegistryPath :=
  { raw := ("HKLM\\Foo").data, value_name := none,
    computer := some (("\\\\srv").data), key := HKEY_LOCAL_MACHINE }

/-- Models `RegistryPath("HKLM\\Foo\\Bar", computer="srv")`. -/
def pFooBarSrv : RegistryPath :=
  { raw := ("HKLM\\Foo\\Bar").data, value_name := none,
    computer := some (("\\\\srv").data), key := HKEY_LOCAL_MACHINE }

/-- Models `RegistryPath("HKLM\\Other\\Stuff", value_name="v")`. -/
def pV : RegistryPath :=
  { raw := ("HKLM\\Other\\Stuff").data, value_name := some (("v").data),
    computer := none, key := HKEY_LOCAL_MACHINE }

/-- Models `RegistryPath("HKLM\\Other\\Stuff")`. -/
def pD : RegistryPath :=
  { raw := ("HKLM\\Other\\Stuff").data, value_name := none, computer := none,
    key := HKEY_LOCAL_MACHINE }

/-- Models `RegistryPath("HKLM\\Other\\Place\\ForMe")`. -/
def p8 : RegistryPath :=
  { raw := ("HKLM\\Other\\Place\\ForMe").data, value_name := none,
    computer := none, key := HKEY_LOCAL_MACHINE }

/-- Models `RegistryPath("HKLM\\Other\\Place\\ForMe", value_name="v")`. -/
def pC3 : RegistryPath :=
  { raw := ("HKLM\\Other\\Place\\ForMe").data, value_name := some (("v").data),
    computer := none, key := HKEY_LOCAL_MACHINE }

/-- A store with one key (3 child keys `"0" "1" "2"`, 2 child values
`"0" "1"`) holding exactly one value named `"v"`. -/
def wOK : Winreg :=
  { connectRegistry := fun _ _ => .ok 1
    openKey := fun _ _ _ => .ok 2
    queryValueEx := fun _ n =>
      if n = ("v").data then .ok (.int 5, REG_SZ) else .error .fileNotFound
    setValueEx := fun _ _ _ _ _ => .ok ()
    deleteValue := fun _ _ => .ok ()
    queryInfoKey := fun _ => .ok (3, 2, 0)
    enumKey := fun _ i => .ok [Char.ofNat (48 + i)]
    enumValue := fun _ i => .ok ([Char.ofNat (48 + i)], .int 0, REG_SZ) }

/-- A store whose connection succeeds (handle 5) but whose key-open fails
with the NotFound signal. -/
def wOpenFail : Winreg :=
  { connectRegistry := fun _ _ => .ok 5
    openKey := fun _ _ _ => .error .fileNotFound
    queryValueEx := fun _ _ => .error .fileNotFound
    setValueEx := fun _ _ _ _ _ => .ok ()
    deleteValue := fun _ _ => .ok ()
    queryInfoKey := fun _ => .error .fileNotFound
    enumKey := fun _ _ => .error .fileNotFound
    enumValue := fun _ _ => .error .fileNotFound }

/-! ### Lemmas about the string model -/

theorem splitOnChar_ne_nil (sep : Char) (l : Str) : splitOnChar sep l ≠ [] := by
  induction l with
  | nil => simp [splitOnChar]
  | cons c rest ih =>
    simp only [splitOnChar]
    rcases h : splitOnChar sep rest with _ | ⟨g, gs⟩
    · exact absurd h ih
    · by_cases hc : c = sep <;> simp [hc]

theorem splitOnChar_eq_cons (sep : Char) (l : Str) :
    ∃ g gs, splitOnChar sep l = g :: gs := by
  rcases h : splitOnChar sep l with _ | ⟨g, gs⟩
  · exact absurd h (splitOnChar_ne_nil sep l)
  · exact ⟨g, gs, rfl⟩

theorem not_mem_of_mem_splitOnChar (sep : Char) (l : Str) :
    ∀ x ∈ splitOnChar sep l, sep ∉ x := by
  induction l with
  | nil => intro x hx; simp [splitOnChar] at hx; simp [hx]
  | cons c rest ih =>
    intro x hx
    obtain ⟨g, gs, h⟩ := splitOnChar_eq_cons sep rest
    have hg : sep ∉ g := ih g (h ▸ List.mem_cons_self g gs)
    have hgs : ∀ y ∈ gs, sep ∉ y := fun y hy => ih y (h ▸ List.mem_cons_of_mem g hy)
    simp only [splitOnChar, h] at hx
    by_cases hc : c = sep
    · rw [if_pos hc] at hx
      rcases List.mem_cons.mp hx with h1 | h1
      · subst h1; simp
      · rcases List.mem_cons.mp h1 with h2 | h2
        · subst h2; exact hg
        · exact hgs x h2
    · rw [if_neg hc] at hx
      rcases List.mem_cons.mp hx with h1 | h1
      · subst h1
        intro hm
        rcases List.mem_cons.mp hm with h2 | h2
        · exact hc h2.symm
        · exact hg h2
      · exact hgs x h1

theorem splitOnChar_of_not_mem (sep : Char) (x : Str) (hx : sep ∉ x) :
    splitOnChar sep x = [x] := by
  induction x with
  | nil => rfl
  | cons c rest ih =>
    have hc : c ≠ sep := fun h => hx (by simp [h])
    have hrest : sep ∉ rest := fun h => hx (List.mem_cons_of_mem c h)
    simp only [splitOnChar, ih hrest]
    simp [fun h => hc h]

theorem splitOnChar_append_sep (sep : Char) (x l : Str) (hx : sep ∉ x) :
    splitOnChar sep (x ++ sep :: l) = x :: splitOnChar sep l := by
  induction x with
  | nil =>
    simp only [List.nil_append, splitOnChar]
    rcases h : splitOnChar sep l with _ | ⟨g, gs⟩
    · exact absurd h (splitOnChar_ne_nil sep l)
    · simp
  | cons c rest ih =>
    have hc : c ≠ sep := fun h => hx (by simp [h])
    have hrest : sep ∉ rest := fun h => hx (List.mem_cons_of_mem c h)
    show splitOnChar sep (c :: (rest ++ sep :: l)) = (c :: rest) :: splitOnChar sep l
    simp only [splitOnChar]
    rw [ih hrest]
    simp [fun h => hc h]

theorem splitOnChar_joinChar (sep : Char) (ps : List Str)
    (hps : ∀ x ∈ ps, sep ∉ x) (hne : ps ≠ []) :
    splitOnChar sep (joinChar sep ps) = ps := by
  induction ps with
  | nil => exact absurd rfl hne
  | cons x rest ih =>
    rcases rest with _ | ⟨y, t⟩
    · exact splitOnChar_of_not_mem sep x (hps x (List.mem_cons_self x []))
    · have hx : sep ∉ x := hps x (List.mem_cons_self x (y :: t))
      have hrest : ∀ z ∈ y :: t, sep ∉ z :=
        fun z hz => hps z (List.mem_cons_of_mem x hz)
      show splitOnChar sep (x ++ sep :: joinChar sep (y :: t)) = x :: y :: t
      rw [splitOnChar_append_sep sep x _ hx, ih hrest (by simp)]

theorem joinChar_splitOnChar (sep : Char) (l : Str) :
    joinChar sep (splitOnChar sep l) = l := by
  induction l with
  | nil => rfl
  | cons c rest ih =>
    simp only [splitOnChar]
    rcases h : splitOnChar sep rest with _ | ⟨g, gs⟩
    · exact absurd h (splitOnChar_ne_nil sep rest)
    · rw [h] at ih
      by_cases hc : c = sep
      · subst hc
        simp only [if_pos rfl, joinChar]
        rcases gs with _ | ⟨g2, t2⟩ <;> simp_all [joinChar]
      · simp only [if_neg hc]
        rcases gs with _ | ⟨g2, t2⟩ <;> simp_all [joinChar]

theorem joinChar_append_single (sep : Char) (ps : List Str) (x : Str) :
    ps ≠ [] → joinChar sep (ps ++ [x]) = joinChar sep ps ++ sep :: x := by
  induction ps with
  | nil => intro h; exact absurd rfl h
  | cons p rest ih =>
    intro _
    rcases rest with _ | ⟨q, t⟩
    · rfl
    · show p ++ sep :: joinChar sep ((q :: t) ++ [x]) =
        (p ++ sep :: joinChar sep (q :: t)) ++ sep :: x
      rw [ih (by simp)]
      simp

theorem joinChar_cons_head (sep : Char) (x : Str) (rest : List Str) :
    ∃ r, joinChar sep (x :: rest) = x ++ r := by
  rcases rest with _ | ⟨y, t⟩
  · exact ⟨[], by simp [joinChar]⟩
  · exact ⟨sep :: joinChar sep (y :: t), rfl⟩

/-! ### Inversion facts about successfully constructed paths -/

theorem registryKeysLookup_head {s : Str} {k : Nat}
    (h : registryKeysLookup s = some k) : ∃ t, s = 'H' :: t := by
  unfold registryKeysLookup at h
  by_cases h1 : s = ("HKCR").data
  · exact ⟨("KCR").data, by rw [h1]⟩
  rw [if_neg h1] at h
  by_cases h2 : s = ("HKEY_CLASSES_ROOT").data
  · exact ⟨("KEY_CLASSES_ROOT").data, by rw [h2]⟩
  rw [if_neg h2] at h
  by_cases h3 : s = ("HKCU").data
  · exact ⟨("KCU").data, by rw [h3]⟩
  rw [if_neg h3] at h
  by_cases h4 : s = ("HKEY_CURRENT_USER").data
  · exact ⟨("KEY_CURRENT_USER").data, by rw [h4]⟩
  rw [if_neg h4] at h
  by_cases h5 : s = ("HKLM").data
  · exact ⟨("KLM").data, by rw [h5]⟩
  rw [if_neg h5] at h
  by_cases h6 : s = ("HKEY_LOCAL_MACHINE").data
  · exact ⟨("KEY_LOCAL_MACHINE").data, by rw [h6]⟩
  rw [if_neg h6] at h
  by_cases h7 : s = ("HKU").data
  · exact ⟨("KU").data, by rw [h7]⟩
  rw [if_neg h7] at h
  by_cases h8 : s = ("HKEY_USERS").data
  · exact ⟨("KEY_USERS").data, by rw [h8]⟩
  rw [if_neg h8] at h
  by_cases h9 : s = ("HKCC").data
  · exact ⟨("KCC").data, by rw [h9]⟩
  rw [if_neg h9] at h
  by_cases h10 : s = ("HKEY_CURRENT_CONFIG").data
  · exact ⟨("KEY_CURRENT_CONFIG").data, by rw [h10]⟩
  rw [if_neg h10] at h
  exact Option.noConfusion h

theorem registryKeysLookup_nil : registryKeysLookup [] = none := by decide

theorem splitOnChar_headD_ne_nil {r : Str} {k : Nat}
    (h : registryKeysLookup ((splitOnChar '\\' r).headD []) = some k) : r ≠ [] := by
  intro hr
  subst hr
  rw [show ((splitOnChar '\\' ([] : Str)).headD []) = [] from rfl,
    registryKeysLookup_nil] at h
  exact Option.noConfusion h

theorem parse_raw_path_ok {comps : List Str} {k : Nat}
    (h : parse_raw_path comps = .ok k) :
    (registryKeysLookup (toUpperStr (comps.headD []))).isSome = true ∧
    registryKeysLookup (comps.headD []) = some k := by
  simp only [parse_raw_path] at h
  split at h
  case isTrue hsome =>
    split at h
    case h_1 k' hk' =>
      refine ⟨hsome, ?_⟩
      rw [hk']
      exact congrArg some (Except.ok.inj h)
    case h_2 hk' => exact absurd h (by simp)
  case isFalse => exact absurd h (by simp)

theorem parse_raw_path_intro {comps : List Str} {k : Nat}
    (hupper : (registryKeysLookup (toUpperStr (comps.headD []))).isSome = true)
    (hk : registryKeysLookup (comps.headD []) = some k) :
    parse_raw_path comps = .ok k := by
  unfold parse_raw_path
  rw [if_pos hupper, hk]

/-- Shape fact: `normalizeComputer` only produces `none` or a double-backslash-prefixed
string whose remainder has no leading backslash. -/
theorem normalizeComputer_shape (comp : Option Str) :
    normalizeComputer comp = none ∨
    ∃ c, normalizeComputer comp = some ('\\' :: '\\' :: c) ∧
      List.dropWhile (fun ch => ch = '\\') c = c := by
  rcases comp with _ | c
  · exact Or.inl rfl
  · simp only [normalizeComputer]
    by_cases hlc : toLowerStr c = ("computer").data
    · simp only [hlc, if_pos rfl]
      exact Or.inl rfl
    · simp only [if_neg hlc]
      exact Or.inr ⟨List.dropWhile (fun ch => ch = '\\') c, rfl,
        List.dropWhile_idempotent _ c⟩

/-- The well-formedness facts `__init__` establishes for every path it
returns. -/
theorem construct_ok_wf {raw_path : Str} {vna comp : Option Str} {p : RegistryPath}
    (h : construct raw_path vna comp = .ok p) :
    p.value_name = vna ∧
    registryKeysLookup ((splitOnChar '\\' p.raw).headD []) = some p.key ∧
    (registryKeysLookup (toUpperStr ((splitOnChar '\\' p.raw).headD []))).isSome = true ∧
    p.computer = normalizeComputer comp := by
  simp only [construct] at h
  split at h
  · exact absurd h (by simp)
  · split at h
    case h_1 k hk =>
      rw [Except.ok.injEq] at h
      subst h
      obtain ⟨hsome, hk'⟩ := parse_raw_path_ok hk
      exact ⟨rfl, hk', hsome, rfl⟩
    case h_2 e he => exact absurd h (by simp)

/-- A successfully constructed path's raw string begins with its first
split component (which begins with `'H'`), hence never with the literal
`computer` prefix. -/
theorem raw_no_computer_prefix {first : Str} {k : Nat} {r : Str}
    (hk : registryKeysLookup first = some k)
    (hr : (splitOnChar '\\' r).headD [] = first) (_hne : r ≠ []) :
    (("computer").data.isPrefixOf (toLowerStr r)) = false := by
  obtain ⟨t, rfl⟩ := registryKeysLookup_head hk
  obtain ⟨g, gs, hsplit⟩ := splitOnChar_eq_cons '\\' r
  have hjoin := joinChar_splitOnChar '\\' r
  rw [hsplit] at hjoin
  rw [hsplit] at hr
  simp only [List.headD_cons] at hr
  subst hr
  obtain ⟨rest, hrest⟩ := joinChar_cons_head '\\' ('H' :: t) gs
  rw [hrest] at hjoin
  rw [← hjoin]
  simp [toLowerStr, List.isPrefixOf]

/-- Re-normalising an already-normalised `computer` field is the identity
(`construct` is called again on `p.computer` by `with_value_name`,
`__truediv__`, …). -/
theorem normalizeComputer_fix {comp : Option Str}
    (hcomp : comp = none ∨ ∃ c, comp = some ('\\' :: '\\' :: c) ∧
      List.dropWhile (fun ch => ch = '\\') c = c) :
    normalizeComputer comp = comp := by
  rcases hcomp with rfl | ⟨c, rfl, hc⟩
  · rfl
  · have hne : toLowerStr ('\\' :: '\\' :: c) ≠ ("computer").data := by
      intro hcontr
      simp only [toLowerStr, List.map_cons] at hcontr
      injection hcontr with h1 _
      exact absurd h1 (by decide)
    simp only [normalizeComputer, if_neg hne]
    have hdrop : List.dropWhile (fun ch => ch = '\\') ('\\' :: '\\' :: c) =
        List.dropWhile (fun ch => ch = '\\') c := by
      simp [List.dropWhile_cons]
    simp only [hdrop, hc]

theorem normalizeComputer_idem (comp : Option Str) :
    normalizeComputer (normalizeComputer comp) = normalizeComputer comp :=
  normalizeComputer_fix (normalizeComputer_shape comp)

/-- Constructing with well-formedness facts in hand: empty-check, the
`computer`-prefix strip and the HKEY resolution all succeed. -/
theorem construct_of_parse {raw : Str} (vna comp : Option Str) {k : Nat}
    (hne : raw ≠ [])
    (hpre : (("computer").data.isPrefixOf (toLowerStr raw)) = false)
    (hparse : parse_raw_path (splitOnChar '\\' raw) = .ok k) :
    construct raw vna comp =
      .ok { raw := raw, value_name := vna, computer := normalizeComputer comp,
            key := k } := by
  simp only [construct]
  rw [if_neg (by exact hne)]
  simp only [hpre, Bool.false_eq_true, if_false, hparse]

/-- Stability: `with_value_name` on a constructed path succeeds and only swaps the
`value_name` field. -/
theorem with_value_name_ok {raw_path : Str} {vna comp : Option Str} {p : RegistryPath}
    (h : construct raw_path vna comp = .ok p) (vn' : Option Str) :
    with_value_name p vn' =
      .ok { raw := p.raw, value_name := vn', computer := p.computer, key := p.key } := by
  obtain ⟨-, hk, hupper, hcomp⟩ := construct_ok_wf h
  have hne : p.raw ≠ [] := splitOnChar_headD_ne_nil hk
  have hpre : (("computer").data.isPrefixOf (toLowerStr p.raw)) = false :=
    raw_no_computer_prefix hk rfl hne
  have hfix : normalizeComputer p.computer = p.computer := by
    rw [hcomp]; exact normalizeComputer_idem comp
  unfold with_value_name
  rw [construct_of_parse vn' p.computer hne hpre (parse_raw_path_intro hupper hk), hfix]

/-- Constructing from the backslash-join of a nonempty prefix of a
constructed path's separator-free components succeeds, resolving the same
HKEY, with no value name and no computer. -/
theorem construct_join_prefix {cs : List Str} {first : Str} {rest : List Str} {k : Nat}
    (hcs : cs = first :: rest)
    (hfree : ∀ x ∈ cs, '\\' ∉ x)
    (hk : registryKeysLookup first = some k)
    (hupper : (registryKeysLookup (toUpperStr first)).isSome = true)
    (m : Nat) (hm1 : 1 ≤ m) :
    construct (joinChar '\\' (cs.take m)) none none =
      .ok { raw := joinChar '\\' (cs.take m), value_name := none, computer := none,
            key := k } := by
  subst hcs
  obtain ⟨m, rfl⟩ : ∃ m', m = m' + 1 := ⟨m - 1, (Nat.succ_pred_eq_of_pos hm1).symm⟩
  rw [List.take_cons (Nat.succ_pos m)]
  simp only [Nat.succ_sub_one]
  have hfree' : ∀ x ∈ first :: rest.take m, '\\' ∉ x := by
    intro x hx
    rcases List.mem_cons.mp hx with h1 | h1
    · exact h1 ▸ hfree first (List.mem_cons_self _ _)
    · exact hfree x (List.mem_cons_of_mem first (List.mem_of_mem_take h1))
  have hsplit : splitOnChar '\\' (joinChar '\\' (first :: rest.take m)) =
      first :: rest.take m :=
    splitOnChar_joinChar '\\' _ hfree' (by simp)
  obtain ⟨t, hfirst⟩ := registryKeysLookup_head hk
  obtain ⟨r, hjoin⟩ := joinChar_cons_head '\\' first (rest.take m)
  have hne : joinChar '\\' (first :: rest.take m) ≠ [] := by
    rw [hjoin, hfirst]; simp
  have hpre : (("computer").data.isPrefixOf
      (toLowerStr (joinChar '\\' (first :: rest.take m)))) = false := by
    rw [hjoin, hfirst]
    simp [toLowerStr, List.isPrefixOf]
  have hparse : parse_raw_path (splitOnChar '\\' (joinChar '\\' (first :: rest.take m))) =
      .ok k := by
    rw [hsplit]
    exact parse_raw_path_intro (by simpa using hupper) (by simpa using hk)
  rw [construct_of_parse none none hne hpre hparse]
  rfl

theorem mapME_ok {α β : Type} {f : α → Except Err β} {g : α → β} {l : List α}
    (h : ∀ a ∈ l, f a = .ok (g a)) : mapME f l = .ok (l.map g) := by
  induction l with
  | nil => rfl
  | cons a rest ih =>
    simp only [mapME, h a (List.mem_cons_self a rest),
      ih (fun b hb => h b (List.mem_cons_of_mem a hb)), List.map_cons]

/-- Decomposition: `parts` is the split component chain with at most one extra element
(the value name) appended. -/
theorem parts_decompose (p : RegistryPath) :
    ∃ e, parts p = path_split p ++ e ∧ e.length ≤ 1 ∧
      (p.value_name = none → e = []) ∧ ∀ v, p.value_name = some v → e = [v] := by
  unfold parts
  rcases hv : p.value_name with _ | v
  · exact ⟨[], rfl, by simp, fun _ => rfl, fun v hcontr => Option.noConfusion hcontr⟩
  · exact ⟨[v], rfl, by simp, fun hcontr => Option.noConfusion hcontr,
      fun v' hv' => by rw [Option.some.inj hv']⟩

/-- The `parents` property on any constructed path: the tuple built by the
`range(1, len(parts))` loop, in closed form. -/
theorem parents_eq {raw_path : Str} {vna comp : Option Str} {p : RegistryPath}
    (h : construct raw_path vna comp = .ok p) :
    parents p = .ok ((List.range' 1 ((parts p).length - 1)).map (fun i =>
      { raw := joinChar '\\' ((parts p).take ((parts p).length - i)),
        value_name := none, computer := none, key := p.key })) := by
  obtain ⟨-, hk, hupper, -⟩ := construct_ok_wf h
  obtain ⟨c0, rest, hcs⟩ := splitOnChar_eq_cons '\\' p.raw
  rw [hcs] at hk hupper
  simp only [List.headD_cons] at hk hupper
  have hfree := not_mem_of_mem_splitOnChar '\\' p.raw
  rw [hcs] at hfree
  obtain ⟨e, he, heL, -, -⟩ := parts_decompose p
  rw [show path_split p = c0 :: rest from hcs] at he
  have hL : (parts p).length = (rest.length + 1) + e.length := by
    rw [he]
    simp [List.length_append]
    omega
  unfold parents
  apply mapME_ok
  intro i hi
  rw [List.mem_range'_1] at hi
  obtain ⟨h1, h2⟩ := hi
  have htake : (parts p).take ((parts p).length - i) =
      (c0 :: rest).take ((parts p).length - i) := by
    rw [he]
    exact List.take_append_of_le_length
      (by simp only [List.length_cons, List.length_append]; omega)
  rw [htake]
  exact construct_join_prefix rfl hfree hk hupper ((parts p).length - i) (by omega)

/-! ### The claims -/

/-- Claim C8: for the path constructed from the raw string
`"HKLM\Other\Place\ForMe"` with no value name, `name` returns `"ForMe"`,
`subkey` returns `"Other\Place\ForMe"` (the container key that would be
opened), and `parts` returns `("HKLM", "Other", "Place", "ForMe")`. -/
theorem claim_C8 :
    construct (("HKLM\\Other\\Place\\ForMe").data) none none = .ok p8 ∧
    name p8 = ("ForMe").data ∧
    subkey p8 = ("Other\\Place\\ForMe").data ∧
    parts p8 = [("HKLM").data, ("Other").data, ("Place").data, ("ForMe").data] :=
  ⟨rfl, rfl, rfl, rfl⟩

/-- Claim C1, evaluated at the failing input: root resolution is *not*
case-insensitive on the success side.  `RegistryPath("hklm\\Foo")` passes
the case-insensitive membership test, but `REGISTRY_KEYS[key_raw]` is then
indexed with the original-case component, raising a `KeyError` instead of
resolving `HKEY_LOCAL_MACHINE`; the canonical spelling succeeds; an alias
unknown under case-insensitive comparison fails with the
`HKeyNotFoundError` (RootNotFound) kind, as the claim says. -/
theorem claim_C1_code_eval :
    construct (("hklm\\Foo").data) none none = .error .keyError ∧
    construct (("HKLM\\Foo").data) none none = .ok pFoo ∧
    construct (("NotReal\\Foo").data) none none = .error .hkeyNotFoundError :=
  ⟨rfl, rfl, rfl⟩

/-- Claim C2 (counterexample): for the host-carrying container path
`a = RegistryPath("HKLM\\Foo", computer="srv")` and the child name `"Bar"`,
`(a / "Bar").parent` is *not* equal to `a` under Path equality: the
`parents` chain is rebuilt without passing `computer`, so the parent names
the local machine while `a` names `\\srv`. -/
theorem claim_C2_counterexample :
    construct (("HKLM\\Foo").data) none (some (("srv").data)) = .ok pFooSrv ∧
    truediv pFooSrv (("Bar").data) = .ok pFooBarSrv ∧
    parent pFooBarSrv = .ok pFoo ∧
    pathEq pFoo pFooSrv = false :=
  ⟨rfl, rfl, rfl, rfl⟩

/-- Claim C2 (amended): for every successfully constructed *local* path `a`
(`host = None`) whose `value_name` is unset and every child name `n`
containing neither separator character, `Concatenate(a, n)` succeeds and
`Concatenate(a, n).parent` is equal to `a` under Path equality.  (The
original claim also covered paths with a non-`None` host; that part is
refuted by `claim_C2_counterexample`, because `parents` rebuilds paths
without the `computer` argument.) -/
theorem claim_C2 {raw_path : Str} {a : RegistryPath} (n : Str)
    (hcons : construct raw_path none none = .ok a)
    (hn1 : '\\' ∉ n) (_hn2 : '/' ∉ n) :
    ∃ b q, truediv a n = .ok b ∧ parent b = .ok q ∧ pathEq q a = true := by
  obtain ⟨hvn, hk, hupper, hcompN⟩ := construct_ok_wf hcons
  have hcomp : a.computer = none := by rw [hcompN]; rfl
  obtain ⟨c0, rest, hcs⟩ := splitOnChar_eq_cons '\\' a.raw
  rw [hcs] at hk hupper
  simp only [List.headD_cons] at hk hupper
  have hfree := not_mem_of_mem_splitOnChar '\\' a.raw
  rw [hcs] at hfree
  have hpa : parts a = c0 :: rest := by
    unfold parts path_split
    rw [hcs, hvn]
    simp
  have hjoin : joinChar '\\' (c0 :: rest) = a.raw := by
    rw [← hcs]
    exact joinChar_splitOnChar '\\' a.raw
  -- the child raw string and its split
  have hfree2 : ∀ x ∈ (c0 :: rest) ++ [n], '\\' ∉ x := by
    intro x hx
    rcases List.mem_append.mp hx with h1 | h1
    · exact hfree x h1
    · rw [List.mem_singleton.mp h1]
      exact hn1
  have hjoin2 : joinChar '\\' (c0 :: rest) ++ '\\' :: n =
      joinChar '\\' ((c0 :: rest) ++ [n]) :=
    (joinChar_append_single '\\' (c0 :: rest) n (by simp)).symm
  have hsplit2 : splitOnChar '\\' (joinChar '\\' ((c0 :: rest) ++ [n])) =
      (c0 :: rest) ++ [n] :=
    splitOnChar_joinChar '\\' _ hfree2 (by simp)
  obtain ⟨t, hfirst⟩ := registryKeysLookup_head hk
  obtain ⟨r, hr⟩ := joinChar_cons_head '\\' c0 (rest ++ [n])
  have hne2 : joinChar '\\' ((c0 :: rest) ++ [n]) ≠ [] := by
    rw [List.cons_append, hr, hfirst]
    simp
  have hpre2 : (("computer").data.isPrefixOf
      (toLowerStr (joinChar '\\' ((c0 :: rest) ++ [n])))) = false := by
    rw [List.cons_append, hr, hfirst]
    simp [toLowerStr, List.isPrefixOf]
  have hparse2 : parse_raw_path
      (splitOnChar '\\' (joinChar '\\' ((c0 :: rest) ++ [n]))) = .ok a.key := by
    rw [hsplit2]
    exact parse_raw_path_intro (by simpa using hupper) (by simpa using hk)
  have hbcons : construct (joinChar '\\' ((c0 :: rest) ++ [n])) none none =
      .ok { raw := joinChar '\\' ((c0 :: rest) ++ [n]), value_name := none,
            computer := none, key := a.key } := by
    rw [construct_of_parse none none hne2 hpre2 hparse2]
    rfl
  have hb : truediv a n =
      .ok { raw := joinChar '\\' ((c0 :: rest) ++ [n]), value_name := none,
            computer := none, key := a.key } := by
    unfold truediv
    rw [hvn]
    rw [hpa, hcomp, hjoin2]
    exact hbcons
  refine ⟨_, { raw := a.raw, value_name := none, computer := none, key := a.key },
    hb, ?_, ?_⟩
  · -- parent of the child is the record with `a`'s raw string
    have hpartsb : parts ⟨joinChar '\\' ((c0 :: rest) ++ [n]), none, none, a.key⟩ =
        (c0 :: rest) ++ [n] := by
      unfold parts path_split
      rw [hsplit2]
      simp
    have hpe := parents_eq hbcons
    rw [hpartsb] at hpe
    have hlen : ((c0 :: rest) ++ [n]).length - 1 = rest.length + 1 := by
      simp
    rw [hlen] at hpe
    rw [List.range'_succ] at hpe
    simp only [List.map_cons] at hpe
    unfold parent
    rw [hpe]
    have htake1 : ((c0 :: rest) ++ [n]).take (((c0 :: rest) ++ [n]).length - 1) =
        c0 :: rest := by
      have : ((c0 :: rest) ++ [n]).length - 1 = (c0 :: rest).length := by simp
      rw [this, List.take_append_of_le_length (Nat.le_refl _), List.take_length]
    rw [htake1, hjoin]
  · have h1 : pathRepr ⟨a.raw, none, none, a.key⟩ = pathRepr a := by
      unfold pathRepr
      rw [hvn, hcomp]
    simp [pathEq, h1]

/-- Claim C2 (witness): the amended theorem applied at the concrete input
`a = RegistryPath("HKLM\\Foo")`, `n = "Bar"`. -/
theorem claim_C2_witness :
    construct (("HKLM\\Foo").data) none none = .ok pFoo ∧
    ('\\' ∉ ("Bar").data ∧ '/' ∉ ("Bar").data) ∧
    ∃ b q, truediv pFoo (("Bar").data) = .ok b ∧ parent b = .ok q ∧
      pathEq q pFoo = true :=
  ⟨rfl, ⟨by decide, by decide⟩,
    claim_C2 (("Bar").data)
      (show construct (("HKLM\\Foo").data) none none = .ok pFoo from rfl)
      (by decide) (by decide)⟩

/-- Claim C3: for every successfully constructed path, `parents` succeeds
and returns a strictly decreasing ancestor chain, nearest first: the i-th
entry is the container path rebuilt from all but the last `i + 1` parts (a
local-machine path with the same root constant), the chain ends at the
root-only path, and its length is `len(segments) - 1` when `value_name` is
unset and `len(segments)` when it is set, where the segment chain is the
raw path's split component sequence (`path_split`). -/
theorem claim_C3 {raw_path : Str} {vna comp : Option Str} {p : RegistryPath}
    (h : construct raw_path vna comp = .ok p) :
    ∃ ps, parents p = .ok ps ∧
      ps.length = (match p.value_name with
        | none => (path_split p).length - 1
        | some _ => (path_split p).length) ∧
      (∀ i (hi : i < ps.length),
        ps.get ⟨i, hi⟩ =
          mkKeyPath (joinChar '\\' ((parts p).take ((parts p).length - 1 - i)))
            p.key) ∧
      (∀ i j (hi : i < ps.length) (hj : j < ps.length), i < j →
        (parts (ps.get ⟨j, hj⟩)).length < (parts (ps.get ⟨i, hi⟩)).length) ∧
      (ps ≠ [] → ps.getLast? =
        some (mkKeyPath ((path_split p).headD []) p.key)) := by
  obtain ⟨hvn, hk0, hupper0, -⟩ := construct_ok_wf h
  obtain ⟨c0, rest, hcs⟩ := splitOnChar_eq_cons '\\' p.raw
  have hk := hk0
  rw [hcs] at hk
  simp only [List.headD_cons] at hk
  have hfree := not_mem_of_mem_splitOnChar '\\' p.raw
  rw [hcs] at hfree
  obtain ⟨e, he, heL, he0, he1⟩ := parts_decompose p
  have hsp : path_split p = c0 :: rest := hcs
  rw [hsp] at he
  have hL : (parts p).length = (rest.length + 1) + e.length := by
    rw [he]
    simp [List.length_append]
    omega
  have hpe := parents_eq h
  refine ⟨_, hpe, ?_, ?_, ?_, ?_⟩
  · -- length
    simp only [List.length_map, List.length_range']
    rcases hv : p.value_name with _ | v
    · have he' := he0 hv
      subst he'
      simp only [hv]
      rw [hsp]
      simp only [List.length_nil, List.length_cons, List.length_append] at hL
      simp only [List.length_cons]
      omega
    · have he' := he1 v hv
      subst he'
      simp only [hv]
      rw [hsp]
      simp only [List.length_nil, List.length_cons, List.length_append] at hL
      simp only [List.length_cons]
      omega
  · -- the chain, nearest first
    intro i hi
    simp only [List.length_map, List.length_range'] at hi
    simp only [List.get_eq_getElem, List.getElem_map, List.getElem_range'_1]
    have harith : (parts p).length - (1 + i) = (parts p).length - 1 - i := by
      omega
    rw [harith]
    rfl
  · -- strictly decreasing
    have hplen : ∀ m, 1 ≤ m → m ≤ rest.length + 1 →
        (parts ⟨joinChar '\\' ((parts p).take m), none, none, p.key⟩).length = m := by
      intro m hm1 hm2
      have htake : (parts p).take m = (c0 :: rest).take m := by
        rw [he]
        exact List.take_append_of_le_length (by simp only [List.length_cons]; omega)
      have hfreeT : ∀ x ∈ (c0 :: rest).take m, '\\' ∉ x :=
        fun x hx => hfree x (List.mem_of_mem_take hx)
      have hTne : (c0 :: rest).take m ≠ [] := by
        obtain ⟨m', rfl⟩ : ∃ m', m = m' + 1 :=
          ⟨m - 1, (Nat.succ_pred_eq_of_pos hm1).symm⟩
        simp [List.take_cons]
      have hsplitT : splitOnChar '\\' (joinChar '\\' ((c0 :: rest).take m)) =
          (c0 :: rest).take m := splitOnChar_joinChar '\\' _ hfreeT hTne
      show (splitOnChar '\\' (joinChar '\\' ((parts p).take m)) ++ []).length = m
      rw [htake, hsplitT]
      simp [List.length_take]
      omega
    intro i j hi hj hij
    simp only [List.length_map, List.length_range'] at hi hj
    simp only [List.get_eq_getElem, List.getElem_map, List.getElem_range'_1]
    have e1 : (parts p).length - (1 + i) = (parts p).length - 1 - i := by omega
    have e2 : (parts p).length - (1 + j) = (parts p).length - 1 - j := by omega
    rw [e1, e2]
    rw [hplen ((parts p).length - 1 - i) (by omega) (by omega),
      hplen ((parts p).length - 1 - j) (by omega) (by omega)]
    omega
  · -- ends at the root-only path
    intro hne
    have hlen1 : 1 ≤ (parts p).length - 1 := by
      rcases List.exists_cons_of_ne_nil hne with ⟨q, qs, hq⟩
      have := congrArg List.length hq
      simp only [List.length_map, List.length_range', List.length_cons] at this
      omega
    rw [List.getLast?_eq_getElem?]
    have hlen2 : ((List.range' 1 ((parts p).length - 1)).map
        (fun i => (⟨joinChar '\\' ((parts p).take ((parts p).length - i)), none,
          none, p.key⟩ : RegistryPath))).length =
        (parts p).length - 1 := by
      simp
    rw [hlen2]
    rw [List.getElem?_eq_getElem (by simp; omega)]
    simp only [List.getElem_map, List.getElem_range'_1]
    have harith : 1 + ((parts p).length - 1 - 1) = (parts p).length - 1 := by omega
    rw [harith]
    have htake1 : (parts p).take ((parts p).length - ((parts p).length - 1)) =
        [c0] := by
      have : (parts p).length - ((parts p).length - 1) = 1 := by omega
      rw [this, he]
      rfl
    rw [htake1, hsp]
    rfl

/-- Claim C3 (witness): the theorem applied at the concrete value-path
`RegistryPath("HKLM\\Other\\Place\\ForMe", value_name="v")`. -/
theorem claim_C3_witness :
    construct (("HKLM\\Other\\Place\\ForMe").data) (some (("v").data)) none = .ok pC3 ∧
    ∃ ps, parents pC3 = .ok ps ∧
      ps.length = (match pC3.value_name with
        | none => (path_split pC3).length - 1
        | some _ => (path_split pC3).length) ∧
      (∀ i (hi : i < ps.length),
        ps.get ⟨i, hi⟩ =
          mkKeyPath (joinChar '\\' ((parts pC3).take ((parts pC3).length - 1 - i)))
            pC3.key) ∧
      (∀ i j (hi : i < ps.length) (hj : j < ps.length), i < j →
        (parts (ps.get ⟨j, hj⟩)).length < (parts (ps.get ⟨i, hi⟩)).length) ∧
      (ps ≠ [] → ps.getLast? =
        some (mkKeyPath ((path_split pC3).headD []) pC3.key)) :=
  ⟨rfl, claim_C3 (show construct (("HKLM\\Other\\Place\\ForMe").data)
    (some (("v").data)) none = .ok pC3 from rfl)⟩

/-- Claim C4: with inference from the existing value disabled
(`read_type=False`), `write` resolves the type tag exactly per the guessing
table — `1` → `REG_DWORD`, `0xFFFFFFFFFF` → `REG_QWORD`, `"hello"` →
`REG_SZ`, `"%hello%"` → `REG_EXPAND_SZ`, `["hi","world"]` → `REG_MULTI_SZ`,
`None` → `REG_NONE`, `b"123"` → `REG_BINARY` (the fallback) — and then
delegates to `write_raw` with that tag; for every negative integer it fails
with the `ValueError` kind (NegativeValueError) before issuing any store
write. -/
theorem claim_C4 (w : Winreg) (p : RegistryPath) (arg : Option Str) (vn : Str)
    (h : pyOr arg p.value_name = some vn) :
    write w p (.int 1) arg false = write_raw w p (.int 1) REG_DWORD (some vn) ∧
    write w p (.int 0xFFFFFFFFFF) arg false =
      write_raw w p (.int 0xFFFFFFFFFF) REG_QWORD (some vn) ∧
    write w p (.str (("hello").data)) arg false =
      write_raw w p (.str (("hello").data)) REG_SZ (some vn) ∧
    write w p (.str (("%hello%").data)) arg false =
      write_raw w p (.str (("%hello%").data)) REG_EXPAND_SZ (some vn) ∧
    write w p (.list [.str (("hi").data), .str (("world").data)]) arg false =
      write_raw w p (.list [.str (("hi").data), .str (("world").data)])
        REG_MULTI_SZ (some vn) ∧
    write w p .none arg false = write_raw w p .none REG_NONE (some vn) ∧
    write w p (.bytes [49, 50, 51]) arg false =
      write_raw w p (.bytes [49, 50, 51]) REG_BINARY (some vn) ∧
    (∀ z : Int, z < 0 → write w p (.int z) arg false =
      (.error .valueError, ([] : List Mut))) := by
  refine ⟨?_, ?_, ?_, ?_, ?_, ?_, ?_, ?_⟩
  · simp only [write]; rw [h]; rfl
  · simp only [write]; rw [h]; rfl
  · simp only [write]; rw [h]; rfl
  · simp only [write]; rw [h]; rfl
  · simp only [write]; rw [h]; rfl
  · simp only [write]; rw [h]; rfl
  · simp only [write]; rw [h]; rfl
  · intro z hz
    simp only [write]
    rw [h]
    simp only [if_pos hz]
    rfl

/-- Claim C4 (witness): the theorem applied at
`RegistryPath("HKLM\\Other\\Stuff", value_name="v")` with no explicit
value-name argument. -/
theorem claim_C4_witness :
    pyOr none pV.value_name = some (("v").data) ∧
    write wOK pV (.int 1) none false =
      write_raw wOK pV (.int 1) REG_DWORD (some (("v").data)) :=
  ⟨rfl, (claim_C4 wOK pV none (("v").data) rfl).1⟩

/-- Claim C5 (counterexample): on the container path
`RegistryPath("HKLM\\Foo")` (no value name), `unlink` fails with the
`FileNotFoundError` kind while `registry_type` (ReadType) and
`read_raw`/`write_raw` fail with the `ValueError` kind — so Unlink's error
on a container path is *not* of the same kind as ReadType's, refuting the
claim as stated. -/
theorem claim_C5_counterexample :
    (unlink wOK pFoo false).1 = .error .fileNotFound ∧
    registry_type wOK pFoo = .error .valueError ∧
    read_raw wOK pFoo none = .error .valueError ∧
    (write_raw wOK pFoo (.int 1) REG_DWORD none).1 = .error .valueError :=
  ⟨rfl, rfl, rfl, rfl⟩

/-- Claim C5 (amended): on every path whose `value_name` is unset, ReadType
(`registry_type`), ReadRaw and WriteRaw (each without an explicit value
name) all fail with the `ValueError` kind (NotAValuePathError), while
Unlink fails with the `FileNotFoundError` kind — a *different* kind than
ReadType's; all four fail before issuing any mutating store call (empty
mutation trace). -/
theorem claim_C5 (w : Winreg) (p : RegistryPath) (mo : Bool) (val : Value)
    (t : Nat) (h : p.value_name = none) :
    registry_type w p = .error .valueError ∧
    read_raw w p none = .error .valueError ∧
    write_raw w p val t none = (.error .valueError, ([] : List Mut)) ∧
    unlink w p mo = (.error .fileNotFound, ([] : List Mut)) := by
  refine ⟨?_, ?_, ?_, ?_⟩ <;>
    simp only [registry_type, read_raw, write_raw, unlink, pyOr, h]

/-- Claim C5 (witness): the amended theorem applied at
`RegistryPath("HKLM\\Foo")`. -/
theorem claim_C5_witness :
    pFoo.value_name = none ∧
    registry_type wOK pFoo = .error .valueError ∧
    unlink wOK pFoo false = (.error .fileNotFound, ([] : List Mut)) :=
  ⟨rfl, (claim_C5 wOK pFoo false (.int 0) 0 rfl).1,
    (claim_C5 wOK pFoo false (.int 0) 0 rfl).2.2.2⟩

/-- Claim C6: `iterdir` on a non-container path (`is_dir` false) fails with
the `NotADirectoryError` kind; on a container reporting `k` child keys and
`v` child values — with `EnumKey`/`EnumValue` producing `kn i`/`vnm i` at
each index — it yields exactly `k + v` items: every child key first, as
`path / child_name` by ascending index, then every child value, as
`path.with_value_name(name)` by ascending index, each index used exactly
once. -/
theorem claim_C6 (w : Winreg) (p : RegistryPath) (handle k v z : Nat)
    (kn vnm : Nat → Str) (bk bv : Nat → RegistryPath) :
    (is_dir w p = .ok false → iterdir w p = .error .notADirectory) ∧
    (is_dir w p = .ok true →
     getSubkeyHandle w p true false = .ok handle →
     w.queryInfoKey handle = .ok (k, v, z) →
     (∀ i, i < k → w.enumKey handle i = .ok (kn i)) →
     (∀ i, i < k → truediv p (kn i) = .ok (bk i)) →
     (∀ i, i < v → ∃ dval dtyp, w.enumValue handle i = .ok (vnm i, dval, dtyp)) →
     (∀ i, i < v → with_value_name p (some (vnm i)) = .ok (bv i)) →
     iterdir w p = .ok ((List.range k).map bk ++ (List.range v).map bv) ∧
     ((List.range k).map bk ++ (List.range v).map bv).length = k + v) := by
  constructor
  · intro h1
    simp only [iterdir, h1]
  · intro h1 h2 h3 hk1 hbk hv1 hbv
    have h5 : mapME (fun i =>
        match w.enumKey handle i with
        | .error e => .error e
        | .ok sub_key_name => truediv p sub_key_name) (List.range k) =
        .ok ((List.range k).map bk) :=
      mapME_ok (fun i hi => by
        rw [hk1 i (List.mem_range.mp hi)]
        exact hbk i (List.mem_range.mp hi))
    have h6 : mapME (fun i =>
        match w.enumValue handle i with
        | .error e => .error e
        | .ok (value_name, _, _) => with_value_name p (some value_name))
        (List.range v) = .ok ((List.range v).map bv) :=
      mapME_ok (fun i hi => by
        obtain ⟨dval, dtyp, hvv⟩ := hv1 i (List.mem_range.mp hi)
        rw [hvv]
        exact hbv i (List.mem_range.mp hi))
    refine ⟨?_, by simp⟩
    simp only [iterdir, h1, h2, h3, h5, h6]

/-- Claim C6 (witness): the theorem applied at the concrete store `wOK`
(3 child keys `"0" "1" "2"`, 2 child values `"0" "1"`) and the container
path `RegistryPath("HKLM\\Other\\Stuff")`. -/
theorem claim_C6_witness :
    is_dir wOK pD = .ok true ∧
    wOK.queryInfoKey 2 = .ok (3, 2, 0) ∧
    iterdir wOK pD = .ok ((List.range 3).map (fun i =>
        (⟨("HKLM\\Other\\Stuff").data ++ '\\' :: [Char.ofNat (48 + i)], none,
          none, HKEY_LOCAL_MACHINE⟩ : RegistryPath)) ++
      (List.range 2).map (fun i =>
        (⟨("HKLM\\Other\\Stuff").data, some [Char.ofNat (48 + i)], none,
          HKEY_LOCAL_MACHINE⟩ : RegistryPath))) :=
  ⟨rfl, rfl,
    ((claim_C6 wOK pD 2 3 2 0
        (fun i => [Char.ofNat (48 + i)]) (fun i => [Char.ofNat (48 + i)])
        (fun i => (⟨("HKLM\\Other\\Stuff").data ++ '\\' :: [Char.ofNat (48 + i)],
          none, none, HKEY_LOCAL_MACHINE⟩ : RegistryPath))
        (fun i => (⟨("HKLM\\Other\\Stuff").data, some [Char.ofNat (48 + i)], none,
          HKEY_LOCAL_MACHINE⟩ : RegistryPath))).2
      rfl rfl rfl
      (fun _ _ => rfl)
      (fun i hi => by interval_cases i <;> rfl)
      (fun _ _ => ⟨.int 0, REG_SZ, rfl⟩)
      (fun i hi => by interval_cases i <;> rfl)).1⟩

theorem pexists_eq_open_error {w : Winreg} {p : RegistryPath} {e : Err}
    (hg : getSubkeyHandle w p true false = .error e) :
    pexists w p = if e.isFileNotFound = true then .ok false else .error e := by
  simp only [pexists, hg]

theorem pexists_eq_open_ok_none {w : Winreg} {p : RegistryPath} {handle : Nat}
    (hg : getSubkeyHandle w p true false = .ok handle)
    (hv : p.value_name = none) :
    pexists w p = .ok true := by
  simp only [pexists, hg, hv]

theorem pexists_eq_query_ok {w : Winreg} {p : RegistryPath} {handle : Nat}
    {vn : Str} {r : Value × Nat}
    (hg : getSubkeyHandle w p true false = .ok handle)
    (hv : p.value_name = some vn)
    (hq : w.queryValueEx handle vn = .ok r) :
    pexists w p = .ok true := by
  simp only [pexists, hg, hv, hq]

theorem pexists_eq_query_error {w : Winreg} {p : RegistryPath} {handle : Nat}
    {vn : Str} {e : Err}
    (hg : getSubkeyHandle w p true false = .ok handle)
    (hv : p.value_name = some vn)
    (hq : w.queryValueEx handle vn = .error e) :
    pexists w p = if e.isFileNotFound = true then .ok false else .error e := by
  simp only [pexists, hg, hv, hq]

/-- Claim C7: `exists` returns true iff opening the key succeeds and, when
`value_name` is set, querying that named value succeeds; every
NotFound-kind error raised during the open or the query is converted to
the return value `false`; every other error kind propagates unchanged. -/
theorem claim_C7 (w : Winreg) (p : RegistryPath) :
    (pexists w p = .ok true ↔
      (∃ handle, getSubkeyHandle w p true false = .ok handle ∧
        ∀ vn, p.value_name = some vn → ∃ r, w.queryValueEx handle vn = .ok r)) ∧
    (∀ e, e.isFileNotFound = true →
      getSubkeyHandle w p true false = .error e → pexists w p = .ok false) ∧
    (∀ handle vn e, p.value_name = some vn →
      getSubkeyHandle w p true false = .ok handle →
      w.queryValueEx handle vn = .error e → e.isFileNotFound = true →
      pexists w p = .ok false) ∧
    (∀ e, e.isFileNotFound = false →
      getSubkeyHandle w p true false = .error e → pexists w p = .error e) ∧
    (∀ handle vn e, p.value_name = some vn →
      getSubkeyHandle w p true false = .ok handle →
      w.queryValueEx handle vn = .error e → e.isFileNotFound = false →
      pexists w p = .error e) := by
  refine ⟨⟨?_, ?_⟩, ?_, ?_, ?_, ?_⟩
  · -- exists = true → open (and query) succeeded
    intro ht
    rcases hg : getSubkeyHandle w p true false with e | handle
    · rw [pexists_eq_open_error hg] at ht
      by_cases hf : e.isFileNotFound = true
      · rw [if_pos hf] at ht
        simp at ht
      · rw [if_neg hf] at ht
        simp at ht
    · refine ⟨handle, rfl, ?_⟩
      intro vn hvn
      rcases hq : w.queryValueEx handle vn with e | r
      · rw [pexists_eq_query_error hg hvn hq] at ht
        by_cases hf : e.isFileNotFound = true
        · rw [if_pos hf] at ht
          simp at ht
        · rw [if_neg hf] at ht
          simp at ht
      · exact ⟨r, rfl⟩
  · -- open (and query) succeeded → exists = true
    rintro ⟨handle, hh, hq⟩
    rcases hv : p.value_name with _ | vn
    · exact pexists_eq_open_ok_none hh hv
    · obtain ⟨r, hr⟩ := hq vn hv
      exact pexists_eq_query_ok hh hv hr
  · -- NotFound during open → false
    intro e he hg
    rw [pexists_eq_open_error hg, if_pos he]
  · -- NotFound during query → false
    intro handle vn e hvn hg hq he
    rw [pexists_eq_query_error hg hvn hq, if_pos he]
  · -- other error kind during open propagates
    intro e he hg
    rw [pexists_eq_open_error hg]
    simp [he]
  · -- other error kind during query propagates
    intro handle vn e hvn hg hq he
    rw [pexists_eq_query_error hg hvn hq]
    simp [he]

/-- Claim C7 (witness): the theorem applied at the store whose key-open
fails with NotFound: `exists` returns false. -/
theorem claim_C7_witness : pexists wOpenFail pFoo = .ok false :=
  (claim_C7 wOpenFail pFoo).2.1 .fileNotFound rfl rfl

/-- Claim C9: in every execution of `_get_subkey_handle` — normal
completion, early return or error unwinding of the body, and failure
partway through acquisition — each acquired handle is released: the
acquire and release counts agree for the connection handle and for the key
handle on every exit path, and in particular when `OpenKey` fails after
`ConnectRegistry` succeeded, the event trace is exactly an acquire and a
release of the connection handle while the failure propagates. -/
theorem claim_C9 (w : Winreg) (p : RegistryPath) (reads writes : Bool)
    {β : Type} (body : Nat → Except Err β) :
    (∀ handle,
      countEv (.acquireConn handle) (getSubkeyHandleScoped w p reads writes body).2 =
      countEv (.releaseConn handle) (getSubkeyHandleScoped w p reads writes body).2) ∧
    (∀ handle,
      countEv (.acquireKey handle) (getSubkeyHandleScoped w p reads writes body).2 =
      countEv (.releaseKey handle) (getSubkeyHandleScoped w p reads writes body).2) ∧
    (∀ rh e, w.connectRegistry p.computer p.key = .ok rh →
      w.openKey rh (subkey p) (accessOf reads writes) = .error e →
      (getSubkeyHandleScoped w p reads writes body).2 =
        [.acquireConn rh, .releaseConn rh] ∧
      (getSubkeyHandleScoped w p reads writes body).1 = .error e) := by
  rcases hc : w.connectRegistry p.computer p.key with e0 | rh0
  · refine ⟨?_, ?_, ?_⟩
    · intro handle
      simp [getSubkeyHandleScoped, hc, countEv]
    · intro handle
      simp [getSubkeyHandleScoped, hc, countEv]
    · intro rh e h1 h2
      exact absurd h1 (by simp)
  · rcases ho : w.openKey rh0 (subkey p) (accessOf reads writes) with e1 | kh
    · refine ⟨?_, ?_, ?_⟩
      · intro handle
        simp [getSubkeyHandleScoped, hc, ho, countEv]
      · intro handle
        simp [getSubkeyHandleScoped, hc, ho, countEv]
      · intro rh e h1 h2
        have hrh : rh0 = rh := by
          injection h1
        subst hrh
        have he : e1 = e := by
          have h3 := ho.symm.trans h2
          injection h3
        subst he
        constructor
        · simp [getSubkeyHandleScoped, hc, ho]
        · simp [getSubkeyHandleScoped, hc, ho]
    · refine ⟨?_, ?_, ?_⟩
      · intro handle
        simp [getSubkeyHandleScoped, hc, ho, countEv]
      · intro handle
        simp [getSubkeyHandleScoped, hc, ho, countEv]
      · intro rh e h1 h2
        have hrh : rh0 = rh := by
          injection h1
        subst hrh
        exact absurd (ho.symm.trans h2) (by simp)

/-- Claim C9 (witness): the theorem applied at the store whose `OpenKey`
fails after `ConnectRegistry` succeeded with handle 5: the connection
handle is still released. -/
theorem claim_C9_witness :
    (getSubkeyHandleScoped wOpenFail pFoo true false
        (fun handle => (.ok handle : Except Err Nat))).2 =
      [.acquireConn 5, .releaseConn 5] :=
  ((claim_C9 wOpenFail pFoo true false (fun handle => .ok handle)).2.2 5
    .fileNotFound rfl rfl).1

/-- Claim C10 (counterexample): on
`RegistryPath("HKLM\\Other\\Stuff", value_name="v")` against a store where
the key exists, the value `"v"` exists and no value named `""` exists,
`is_file("")` returns false while `is_file()` returns true — so passing the
empty string as the explicit value-name argument does *not* behave as if
the argument were omitted for IsLeaf: the rebuilt path uses the explicit
argument verbatim, addressing the value whose name is the empty string. -/
theorem claim_C10_counterexample :
    is_file wOK pV (some []) = .ok false ∧
    is_file wOK pV none = .ok true :=
  ⟨rfl, rfl⟩

/-- Claim C10 (amended): for ReadRaw, Read, WriteRaw and Write, passing the
empty string `""` as the explicit value-name argument behaves exactly as if
the argument were omitted (the falsy-`or` falls back to the path's own
`value_name`, or fails with the value-name-required `ValueError` when that
is also unset), so those four operations can never address a value whose
name is the empty string through the explicit argument.  For IsLeaf
(`is_file`), `""` is treated as omitted only in the non-null test: when the
path's own `value_name` is unset the results agree, but when it is set the
existence check runs on the path rebuilt with the verbatim `""` argument —
addressing the empty-named value — which `claim_C10_counterexample` shows
can differ from the omitted-argument behaviour. -/
theorem claim_C10 (w : Winreg) {raw_path : Str} {vna comp : Option Str}
    {p : RegistryPath} (hp : construct raw_path vna comp = .ok p) :
    read_raw w p (some []) = read_raw w p none ∧
    read w p (some []) = read w p none ∧
    (∀ val t, write_raw w p val t (some []) = write_raw w p val t none) ∧
    (∀ val rt, write w p val (some []) rt = write w p val none rt) ∧
    (p.value_name = none → is_file w p (some []) = is_file w p none) ∧
    (∀ vn, p.value_name = some vn →
      is_file w p (some []) =
        pexists w { raw := p.raw, value_name := some [], computer := p.computer,
                    key := p.key }) := by
  refine ⟨rfl, rfl, fun val t => rfl, fun val rt => rfl, ?_, ?_⟩
  · intro hv
    simp only [is_file, pyOr, hv]
    rfl
  · intro vn hvn
    have hwv := with_value_name_ok hp (some ([] : Str))
    simp only [is_file, pyOr, hvn, if_pos rfl, hwv]
    rfl

/-- Claim C10 (witness): the amended theorem applied at
`RegistryPath("HKLM\\Other\\Stuff", value_name="v")`: `is_file("")` is the
existence check of the value named `""`. -/
theorem claim_C10_witness :
    construct (("HKLM\\Other\\Stuff").data) (some (("v").data)) none = .ok pV ∧
    pV.value_name = some (("v").data) ∧
    is_file wOK pV (some []) =
      pexists wOK { raw := pV.raw, value_name := some [], computer := pV.computer,
                    key := pV.key } :=
  ⟨rfl, rfl,
    (claim_C10 wOK (show construct (("HKLM\\Other\\Stuff").data)
        (some (("v").data)) none = .ok pV from rfl)).2.2.2.2.2
      (("v").data) rfl⟩

end Regpath
